import Mathlib

/-!
# Verification of the ELF / `.eh_frame` reader (`elf_reader.cpp`)

A shallow embedding of the ELF structural parser and the call-frame-information
(`.eh_frame`) decoder of `elf_reader.cpp`, together with theorems settling the
specification's claims about it.

Conventions of the embedding:
* machine bytes are `Nat` values `< 256`; a section or file is a `List Nat`;
* 64-bit machine arithmetic is `Nat` arithmetic reduced `% 2 ^ 64` where the
  C++ code computes in `uint64_t`;
* positions are byte offsets (`Nat`) from the start of the section / file;
* fallible parsing returns `Except EhErr _` (frame decoder) or `Option _`
  (structural parser); the distinguished error `EhErr.aborted` embeds the
  `CHECK`/`abort()` calls of the decoder, which terminate the process instead
  of returning `false`.

The byte-read primitives (`Read`, `ReadStr`, `ReadULEB128`, `ReadLEB128`,
`ReadEhEncoding`) and the constants of `dwarf.h` live in headers that are not
part of the repository snapshot; they are modelled from the specification's
descriptions (§4.3, glossary), as noted on each definition.
-/

namespace ElfReaderModel

/-! ## Byte-read primitives -/

/-- Little-endian value of a byte list (first byte is least significant). -/
def bytesLE : List Nat → Nat
  | [] => 0
  | b :: rest => b % 256 + 256 * bytesLE rest

/-- The `n` bytes of `data` starting at `pos`, when they all exist. -/
def sliceOpt (data : List Nat) (pos n : Nat) : Option (List Nat) :=
  if pos + n ≤ data.length then some ((data.drop pos).take n) else none

/-- The bytes of `data` from `pos` (inclusive) to `stop` (exclusive), clipped
to the data; used for the verbatim instruction ranges (`insts.insert(p, cie_end)`). -/
def sliceBytes (data : List Nat) (pos stop : Nat) : List Nat :=
  (data.take stop).drop pos

/-- Errors of the frame-info decoder: `fail` embeds `return false`
(recoverable at the call boundary), `aborted` embeds `CHECK` / `abort()`
(the non-continuable `MalformedAugmentation` condition). -/
inductive EhErr where
  | fail
  | aborted
deriving DecidableEq, Repr

/-- Decidable equality of parse results, for evaluating the model on
concrete inputs. -/
instance {α : Type} [DecidableEq α] : DecidableEq (Except EhErr α) := fun x y =>
  match x, y with
  | .ok a, .ok b =>
    if h : a = b then .isTrue (by rw [h]) else .isFalse (by intro hc; cases hc; exact h rfl)
  | .error a, .error b =>
    if h : a = b then .isTrue (by rw [h]) else .isFalse (by intro hc; cases hc; exact h rfl)
  | .ok _, .error _ => .isFalse (by intro hc; cases hc)
  | .error _, .ok _ => .isFalse (by intro hc; cases hc)

/-- Modelled from the spec: fixed-width little-endian read (`Read(p, n)` of
`read_utils.h`, absent from the snapshot), returning the value and the
advanced cursor; a read past the end of the section is a recoverable
`TruncatedRead` decode failure (§7). -/
def readU (data : List Nat) (pos n : Nat) : Except EhErr (Nat × Nat) :=
  match sliceOpt data pos n with
  | some bs => .ok (bytesLE bs, pos + n)
  | none => .error .fail

/-- Bytes of a null-terminated string together with the cursor advance
(string bytes without the terminator, bytes consumed including it). -/
def takeStrBytes : List Nat → Option (List Nat × Nat)
  | [] => none
  | b :: rest =>
    if b = 0 then some ([], 1)
    else (takeStrBytes rest).map fun sn => (b :: sn.1, sn.2 + 1)

/-- Modelled from the spec: `ReadStr(p)` of `read_utils.h` (absent from the
snapshot) — read a null-terminated string and advance the cursor past the
terminator; a string with no terminator inside the section is a recoverable
decode failure. -/
def readStrU (data : List Nat) (pos : Nat) : Except EhErr (List Nat × Nat) :=
  match takeStrBytes (data.drop pos) with
  | some (s, n) => .ok (s, pos + n)
  | none => .error .fail

/-- ULEB128 accumulation on a byte list: 7 low bits per byte, continuation in
the high bit; returns the value and the bytes consumed. -/
def ulebAux : List Nat → Option (Nat × Nat)
  | [] => none
  | b :: rest =>
    if b % 256 < 128 then some (b % 256, 1)
    else (ulebAux rest).map fun vn => (b % 256 - 128 + 128 * vn.1, vn.2 + 1)

/-- Modelled from the spec (§4.3): `ReadULEB128(p)` of `read_utils.h` (absent
from the snapshot) — unsigned LEB128, unbounded byte count, cursor advanced
by the bytes consumed. -/
def readULEBU (data : List Nat) (pos : Nat) : Except EhErr (Nat × Nat) :=
  match ulebAux (data.drop pos) with
  | some (v, n) => .ok (v, pos + n)
  | none => .error .fail

/-- SLEB128 accumulation: identical to ULEB128 except that bit 6 of the final
byte sign-extends the result. -/
def slebAux : List Nat → Option (Int × Nat)
  | [] => none
  | b :: rest =>
    if b % 256 < 128 then
      some (if b % 256 < 64 then ((b % 256 : Nat) : Int) else ((b % 256 : Nat) : Int) - 128, 1)
    else (slebAux rest).map fun vn => (((b % 256 - 128 : Nat) : Int) + 128 * vn.1, vn.2 + 1)

/-- Modelled from the spec (§4.3): `ReadLEB128(p)` of `read_utils.h` (absent
from the snapshot) — signed LEB128. -/
def readSLEBU (data : List Nat) (pos : Nat) : Except EhErr (Int × Nat) :=
  match slebAux (data.drop pos) with
  | some (v, n) => .ok (v, pos + n)
  | none => .error .fail

/-- A signed `w`-bit on-disk value `v` (with `v < 2 ^ w`) as the 64-bit
unsigned value the decoder returns. -/
def signExtend64 (w v : Nat) : Nat :=
  if v % 2 ^ w < 2 ^ (w - 1) then v % 2 ^ w
  else (v % 2 ^ w + (2 ^ 64 - 2 ^ w)) % 2 ^ 64

/-- An `Int` reduced into the unsigned 64-bit range. -/
def intToU64 (v : Int) : Nat := (v % (2 ^ 64 : Int)).toNat

/-- Modelled from the spec (§4.3): `ReadEhEncoding(p, encoding)` of
`read_utils.h` (absent from the snapshot) — DWARF exception-header pointer
decoding.  The low nibble of the encoding byte selects the on-disk
representation: absolute 2/4/8-byte (`DW_EH_PE_udata2/4/8`, signed variants
`sdata2/4/8`), ULEB128 or SLEB128; `DW_EH_PE_absptr` (0) reads a native
8-byte pointer.  The result is the raw 64-bit value; the high nibble
(base/application) is applied by the caller. -/
def readEhEncodingU (data : List Nat) (pos enc : Nat) : Except EhErr (Nat × Nat) :=
  match enc % 16 with
  | 0x1 => (readULEBU data pos).map fun vn => (vn.1 % 2 ^ 64, vn.2)
  | 0x2 => readU data pos 2
  | 0x3 => readU data pos 4
  | 0x4 => readU data pos 8
  | 0x9 => (readSLEBU data pos).map fun vn => (intToU64 vn.1, vn.2)
  | 0xa => (readU data pos 2).map fun vn => (signExtend64 16 vn.1, vn.2)
  | 0xb => (readU data pos 4).map fun vn => (signExtend64 32 vn.1, vn.2)
  | 0xc => readU data pos 8
  | _ => readU data pos 8

/-! ## DWARF constants

Modelled from the spec: `dwarf.h` is absent from the snapshot; the 32-bit
all-ones CIE sentinel, its 64-bit promotion (§4.4 step 2) and the
PC-relative base nibble (`DW_EH_PE_pcrel`, glossary / §4.3) are the standard
DWARF values. -/

def DW_CIE_ID_32 : Nat := 0xffffffff

def DW_CIE_ID_64 : Nat := 2 ^ 64 - 1

def DW_EH_PE_pcrel : Nat := 0x10

/-- 64-bit unsigned subtraction `a - b` with wraparound (the decoder computes
the backward CIE displacement in `uint64_t`). -/
def sub64 (a b : Nat) : Nat := (a + (2 ^ 64 - b % 2 ^ 64)) % 2 ^ 64

/-! ## Data model of the decoder -/

/-- A Common Information Entry as stored by the decoder (`struct Cie` of
`dwarf.h`; field set and defaults per the spec §3: the FDE pointer encoding
defaults to absolute (`DW_EH_PE_absptr` = 0) until augmentation `'R'`
overrides it, the LSDA encoding defaults to 0 meaning "none", and the entry
is keyed by its byte offset within the section). -/
structure Cie where
  offset : Nat
  section64 : Bool := false
  augmentation : List Nat := []
  address_size : Nat := 0
  data_alignment_factor : Int := 0
  fde_pointer_encoding : Nat := 0
  lsda_encoding : Nat := 0
  insts : List Nat := []
deriving DecidableEq, Repr

/-- A Frame Description Entry as stored by the decoder (`struct Fde` of
`dwarf.h`; per the spec §3 it holds a reference to its Cie, the function
start/end addresses, the 64-bit-length-form flag and the raw instruction
bytes, keyed by function start address). -/
structure Fde where
  cie : Cie
  section64 : Bool := false
  func_start : Nat := 0
  func_end : Nat := 0
  insts : List Nat := []
deriving DecidableEq, Repr

/-- Association-list insert with replacement (the table key maps to exactly
one entry, as in the `std::map` tables of the decoder). -/
def insertA {β : Type} : List (Nat × β) → Nat → β → List (Nat × β)
  | [], k, v => [(k, v)]
  | (k', v') :: rest, k, v =>
    if k' = k then (k, v) :: rest else (k', v') :: insertA rest k v

/-- Association-list lookup (`CieTable::FindCie` / map `find`). -/
def lookupA {β : Type} : List (Nat × β) → Nat → Option β
  | [], _ => none
  | (k', v') :: rest, k => if k' = k then some v' else lookupA rest k

/-- The decoder's tables: `cie_table_` keyed by section byte offset and
`fde_table_` keyed by function start address. -/
structure EhTables where
  cies : List (Nat × Cie)
  fdes : List (Nat × Fde)
deriving DecidableEq, Repr

/-- `ReadEhFrame` decodes with `.eh_frame` semantics (`bool is_eh_frame = true;`
in the source; the `.debug_frame` alternative is never selected). -/
def is_eh_frame : Bool := true

/-! ## Decoder bodies, translated from `ElfReaderImpl::ReadEhFrame` -/

/-- The augmentation-character loop shared verbatim by both the diagnostic
pass and the decode pass (`for (int i = 1; augmentation[i] != '\0'; ++i)`):
`'R'` (82) reads the FDE pointer encoding into the Cie, `'P'` (80) reads and
discards an encoding byte plus an encoded personality pointer, `'L'` (76)
reads the LSDA encoding into the Cie, and any other character aborts. -/
def augLoop (data : List Nat) : List Nat → Nat → Cie → Except EhErr (Cie × Nat)
  | [], pos, cie => .ok (cie, pos)
  | c :: rest, pos, cie =>
    if c = 82 then do
      let (fde_pointer_encoding, p) ← readU data pos 1
      augLoop data rest p { cie with fde_pointer_encoding := fde_pointer_encoding }
    else if c = 80 then do
      let (encoding, p) ← readU data pos 1
      let (_personality_handler, p2) ← readEhEncodingU data p encoding
      augLoop data rest p2 cie
    else if c = 76 then do
      let (lsda_encoding, p) ← readU data pos 1
      augLoop data rest p { cie with lsda_encoding := lsda_encoding }
    else .error .aborted

/-- CIE body of the decode pass (source lines 392–433): version byte,
augmentation string (checked by `CHECK` to be empty or to start with `'z'`
= 122), address/segment size bytes for version ≥ 4 (address size defaults
to 8 otherwise), code and data alignment factors, return-address register
(one byte for version 1, ULEB128 otherwise), the `'z'` augmentation data,
and the remaining record bytes stored verbatim as initial instructions. -/
def cieBodyR (data : List Nat) (pos cie_end off : Nat) (s64 : Bool) : Except EhErr Cie := do
  let (version, p1) ← readU data pos 1
  let (augmentation, p2) ← readStrU data p1
  if augmentation = [] ∨ augmentation.head? = some 122 then do
    let (address_size, p3) ←
      if version ≥ 4 then do
        let (a, q) ← readU data p2 1
        let (_segment_size, q2) ← readU data q 1
        pure (a, q2)
      else
        pure ((8 : Nat), p2)
    let (_code_alignment_factor, p4) ← readULEBU data p3
    let (data_alignment_factor, p5) ← readSLEBU data p4
    let (_return_address_register, p6) ←
      if version = 1 then readU data p5 1 else readULEBU data p5
    let cie0 : Cie :=
      { offset := off, section64 := s64, augmentation := augmentation,
        address_size := address_size, data_alignment_factor := data_alignment_factor }
    let (cie1, p7) ←
      if augmentation.head? = some 122 then do
        let (_augmentation_len, q) ← readULEBU data p6
        augLoop data augmentation.tail q cie0
      else
        pure (cie0, p6)
    pure { cie1 with insts := sliceBytes data p7 cie_end }
  else
    .error .aborted

/-- FDE body of the decode pass (source lines 435–458): compute the CIE
offset backward from the position of the ID field (`p - secbytes - begin -
cie_id`, 64-bit arithmetic), resolve it in the CIE table (`return false` if
absent), read initial location and address range with the CIE's FDE pointer
encoding, apply the PC-relative base adjustment, skip the `'z'` augmentation
length and the LSDA pointer when the CIE declares them, and store the
remaining record bytes verbatim. -/
def fdeBodyR (secAddr : Nat) (data : List Nat) (pos sb cie_id cie_end : Nat)
    (s64 : Bool) (cies : List (Nat × Cie)) : Except EhErr Fde := do
  let cie_offset := sub64 (pos - sb) cie_id
  match lookupA cies cie_offset with
  | none => .error .fail
  | some cie => do
    let base := pos
    let (initial_location, p1) ← readEhEncodingU data pos cie.fde_pointer_encoding
    let (address_range, p2) ← readEhEncodingU data p1 cie.fde_pointer_encoding
    let proc_start :=
      if cie.fde_pointer_encoding &&& 0x70 = DW_EH_PE_pcrel then
        (initial_location + secAddr + base) % 2 ^ 64
      else
        initial_location
    let p3 ←
      if cie.augmentation.head? = some 122 then do
        let (_augmentation_len, q) ← readULEBU data p2
        pure q
      else
        pure p2
    let p4 ←
      if cie.lsda_encoding ≠ 0 then do
        let (_lsda, q) ← readEhEncodingU data p3 cie.lsda_encoding
        pure q
      else
        pure p3
    pure { cie := cie, section64 := s64, func_start := proc_start,
           func_end := (proc_start + address_range) % 2 ^ 64,
           insts := sliceBytes data p4 cie_end }

/-- Record length prefix (both passes): a 4-byte length, with the all-ones
sentinel announcing the 64-bit extended form whose true length follows in 8
bytes.  Returns the extended-form flag, the ID-field width `secbytes`, the
unit length and the cursor after the length field. -/
def recordHead (data : List Nat) (pos : Nat) : Except EhErr (Bool × Nat × Nat × Nat) := do
  let (len, p1) ← readU data pos 4
  if len = 0xffffffff then do
    let (unit_len, p2) ← readU data p1 8
    pure (true, 8, unit_len, p2)
  else
    pure (false, 4, len, p1)

/-- One non-terminator record of the decode pass: read the ID at the record's
native width, promote the 32-bit all-ones sentinel, classify CIE vs FDE
(`.eh_frame` semantics: ID = 0 means CIE) and run the matching body,
inserting the result into the decoder's tables.  `pos` is the record start
(the `CreateCie` key), `p2` the cursor after the length field. -/
def recordBodyR (secAddr : Nat) (data : List Nat) (pos p2 sb unit_len : Nat)
    (s64 : Bool) (st : EhTables) : Except EhErr EhTables := do
  let cie_end := p2 + unit_len
  let (id0, p3) ← readU data p2 sb
  let cie_id := if s64 = false ∧ id0 = DW_CIE_ID_32 then DW_CIE_ID_64 else id0
  if (if is_eh_frame then cie_id = 0 else cie_id = DW_CIE_ID_64) then do
    let cie ← cieBodyR data p3 cie_end pos s64
    pure { st with cies := insertA st.cies pos cie }
  else do
    let fde ← fdeBodyR secAddr data p3 sb cie_id cie_end s64 st.cies
    pure { st with fdes := insertA st.fdes fde.func_start fde }

/-- Decode outcomes at the `ReadEhFrame` boundary: `ok`/`fail` are the
boolean result, `aborted` the non-continuable `abort()`.  `stuck` is the
fuel-exhaustion artifact of the embedding; the loop consumes at least four
bytes per step, so it is unreachable for fuel exceeding the record count
(the model always supplies `data.length + 1`). -/
inductive EhOutcome where
  | ok
  | fail
  | aborted
  | stuck
deriving DecidableEq, Repr

/-- The decode pass (source lines 368–461): scan records from `pos`; a
zero unit length is a terminator that is skipped (cursor past its length
field); otherwise decode the record body and jump to the record's computed
end.  On `return false` / `abort` the tables built so far are kept. -/
def ehLoopR (secAddr : Nat) (data : List Nat) :
    Nat → Nat → EhTables → EhOutcome × EhTables
  | 0, _, st => (.stuck, st)
  | fuel + 1, pos, st =>
    if pos < data.length then
      match recordHead data pos with
      | .error .fail => (.fail, st)
      | .error .aborted => (.aborted, st)
      | .ok (s64, sb, unit_len, p2) =>
        if unit_len = 0 then
          ehLoopR secAddr data fuel p2 st
        else
          match recordBodyR secAddr data pos p2 sb unit_len s64 st with
          | .error .fail => (.fail, st)
          | .error .aborted => (.aborted, st)
          | .ok st' => ehLoopR secAddr data fuel (p2 + unit_len) st'
    else
      (.ok, st)

/-! ## Diagnostic (verbose) pass, translated from source lines 254–366

When `log_flag_ & LOG_EH_FRAME_SECTION` is set, `ReadEhFrame` first narrates
the section into a throwaway local `CieTable`.  The loop mirrors the decode
pass byte for byte — same reads, same `CHECK`/`abort` conditions, same
`return false` on an unresolved CIE reference — but it does not set
`section64`, does not store instruction bytes, and never creates an `Fde`.
(The `printf` narration itself has no effect on the embedding.) -/

/-- CIE body of the diagnostic pass (source lines 283–336): identical reads
and table updates as `cieBodyR`, except that `section64` and the instruction
bytes are not recorded on the throwaway entry. -/
def cieBodyL (data : List Nat) (pos _cie_end off : Nat) : Except EhErr Cie := do
  let (version, p1) ← readU data pos 1
  let (augmentation, p2) ← readStrU data p1
  if augmentation = [] ∨ augmentation.head? = some 122 then do
    let (address_size, p3) ←
      if version ≥ 4 then do
        let (a, q) ← readU data p2 1
        let (_segment_size, q2) ← readU data q 1
        pure (a, q2)
      else
        pure ((8 : Nat), p2)
    let (_code_alignment_factor, p4) ← readULEBU data p3
    let (data_alignment_factor, p5) ← readSLEBU data p4
    let (_return_address_register, p6) ←
      if version = 1 then readU data p5 1 else readULEBU data p5
    let cie0 : Cie :=
      { offset := off, augmentation := augmentation,
        address_size := address_size, data_alignment_factor := data_alignment_factor }
    let (cie1, _p7) ←
      if augmentation.head? = some 122 then do
        let (_augmentation_len, q) ← readULEBU data p6
        augLoop data augmentation.tail q cie0
      else
        pure (cie0, p6)
    pure cie1
  else
    .error .aborted

/-- FDE body of the diagnostic pass (source lines 338–362): the same CIE
resolution (`return false` when absent) and the same reads as `fdeBodyR`,
printed rather than stored; no `Fde` is created. -/
def fdeBodyL (secAddr : Nat) (data : List Nat) (pos sb cie_id cie_end : Nat)
    (cies : List (Nat × Cie)) : Except EhErr Unit := do
  let cie_offset := sub64 (pos - sb) cie_id
  match lookupA cies cie_offset with
  | none => .error .fail
  | some cie => do
    let base := pos
    let (initial_location, p1) ← readEhEncodingU data pos cie.fde_pointer_encoding
    let (address_range, p2) ← readEhEncodingU data p1 cie.fde_pointer_encoding
    let _proc_start :=
      if cie.fde_pointer_encoding &&& 0x70 = DW_EH_PE_pcrel then
        (initial_location + secAddr + base) % 2 ^ 64
      else
        initial_location
    let _range := address_range
    let p3 ←
      if cie.augmentation.head? = some 122 then do
        let (_augmentation_len, q) ← readULEBU data p2
        pure q
      else
        pure p2
    let _p4 ←
      if cie.lsda_encoding ≠ 0 then do
        let (_lsda, q) ← readEhEncodingU data p3 cie.lsda_encoding
        pure q
      else
        pure p3
    let _instsLen := cie_end
    pure ()

/-- One non-terminator record of the diagnostic pass, over the throwaway
local CIE table. -/
def recordBodyL (secAddr : Nat) (data : List Nat) (pos p2 sb unit_len : Nat)
    (s64 : Bool) (cies : List (Nat × Cie)) : Except EhErr (List (Nat × Cie)) := do
  let cie_end := p2 + unit_len
  let (id0, p3) ← readU data p2 sb
  let cie_id := if s64 = false ∧ id0 = DW_CIE_ID_32 then DW_CIE_ID_64 else id0
  if (if is_eh_frame then cie_id = 0 else cie_id = DW_CIE_ID_64) then do
    let cie ← cieBodyL data p3 cie_end pos
    pure (insertA cies pos cie)
  else do
    let _ ← fdeBodyL secAddr data p3 sb cie_id cie_end cies
    pure cies

/-- The diagnostic pass loop (source lines 257–365). -/
def ehLoopL (secAddr : Nat) (data : List Nat) :
    Nat → Nat → List (Nat × Cie) → EhOutcome × List (Nat × Cie)
  | 0, _, cies => (.stuck, cies)
  | fuel + 1, pos, cies =>
    if pos < data.length then
      match recordHead data pos with
      | .error .fail => (.fail, cies)
      | .error .aborted => (.aborted, cies)
      | .ok (s64, sb, unit_len, p2) =>
        if unit_len = 0 then
          ehLoopL secAddr data fuel p2 cies
        else
          match recordBodyL secAddr data pos p2 sb unit_len s64 cies with
          | .error .fail => (.fail, cies)
          | .error .aborted => (.aborted, cies)
          | .ok cies' => ehLoopL secAddr data fuel (p2 + unit_len) cies'
    else
      (.ok, cies)

/-! ## `ReadEhFrame` at the reader-instance boundary -/

/-- The per-instance frame-info state of an `ElfReaderImpl`: the
`READ_EH_FRAME_SECTION` bit of `read_section_flag_` and the two member
tables. -/
structure EhReaderState where
  ehFrameRead : Bool
  cies : List (Nat × Cie)
  fdes : List (Nat × Fde)
deriving DecidableEq, Repr

/-- One full (non-cached) run of `ReadEhFrame` (source lines 245–463):
`ehData` is the result of looking up the `.eh_frame` section (`none` when
`GetSection` fails; an I/O failure in `ReadSection` surfaces as empty data),
`secAddr` its mapped virtual address and `logFlag` the
`LOG_EH_FRAME_SECTION` bit of `log_flag_`.  With logging on, the diagnostic
pass runs first over a throwaway table, and its `return false` / `abort`
ends the call before the member tables are touched.  The decode pass then
fills the member tables; only a fully successful decode sets the
`READ_EH_FRAME_SECTION` flag. -/
def ehFrameDecodeOnce (secAddr : Nat) (ehData : Option (List Nat)) (logFlag : Bool)
    (st : EhReaderState) : EhOutcome × EhReaderState :=
  match ehData with
  | none => (.fail, st)
  | some data =>
    let runReal : EhOutcome × EhReaderState :=
      match ehLoopR secAddr data (data.length + 1) 0 ⟨st.cies, st.fdes⟩ with
      | (.ok, t) => (.ok, { ehFrameRead := true, cies := t.cies, fdes := t.fdes })
      | (out, t) => (out, { ehFrameRead := st.ehFrameRead, cies := t.cies, fdes := t.fdes })
    if logFlag then
      match ehLoopL secAddr data (data.length + 1) 0 [] with
      | (.ok, _) => runReal
      | (out, _) => (out, st)
    else
      runReal

/-- `ElfReaderImpl::ReadEhFrame` (source lines 241–464): once the
`READ_EH_FRAME_SECTION` bit is set, return success immediately; otherwise
perform the decode. -/
def ReadEhFrameM (secAddr : Nat) (ehData : Option (List Nat)) (logFlag : Bool)
    (st : EhReaderState) : EhOutcome × EhReaderState :=
  if st.ehFrameRead then (.ok, st)
  else ehFrameDecodeOnce secAddr ehData logFlag st

/-! ## ELF structural parser, translated from `ElfReader::Create` and the
`ElfReaderImpl` header/section/program-header readers

The file is a `List Nat` of bytes.  `ReadFully` models the positioned
`pread64`: it succeeds only when every requested byte exists.  The template
parameter `ElfStruct` (Elf32 vs Elf64 field layouts of the system `elf.h`
structs) becomes an explicit `ElfLayout` record of field offsets/widths. -/

/-- `ReadFully(buf, size, offset)`: the `size` bytes at `offset`, or failure
when the read cannot be satisfied in full. -/
def ReadFully (file : List Nat) (size offset : Nat) : Option (List Nat) :=
  if offset + size ≤ file.length then some ((file.drop offset).take size) else none

/-- A fixed-width little-endian field at a byte offset of an in-memory
struct image. -/
def fld (bytes : List Nat) (f : Nat × Nat) : Nat :=
  bytesLE ((bytes.drop f.1).take f.2)

/-- Field layout of one ELF width class (offset/width pairs into the raw
header images), standing in for the `Elf32Struct`/`Elf64Struct` template
arguments; values are the standard `elf.h` struct layouts. -/
structure ElfLayout where
  elfClass : Nat
  ehdrSize : Nat
  e_shoff : Nat × Nat
  e_shentsize : Nat × Nat
  e_shnum : Nat × Nat
  e_shstrndx : Nat × Nat
  e_phoff : Nat × Nat
  e_phentsize : Nat × Nat
  e_phnum : Nat × Nat
  shdrSize : Nat
  sh_name : Nat × Nat
  sh_addr : Nat × Nat
  sh_offset : Nat × Nat
  sh_size : Nat × Nat
  phdrSize : Nat
  p_type : Nat × Nat
  p_flags : Nat × Nat
  p_offset : Nat × Nat
  p_vaddr : Nat × Nat
  p_paddr : Nat × Nat
  p_filesz : Nat × Nat
deriving DecidableEq, Repr

/-- `Elf64Struct`: the `Elf64_Ehdr`/`Elf64_Shdr`/`Elf64_Phdr` layouts,
`ELFCLASS64` = 2. -/
def elf64Layout : ElfLayout :=
  { elfClass := 2, ehdrSize := 64,
    e_shoff := (40, 8), e_shentsize := (58, 2), e_shnum := (60, 2), e_shstrndx := (62, 2),
    e_phoff := (32, 8), e_phentsize := (54, 2), e_phnum := (56, 2),
    shdrSize := 64, sh_name := (0, 4), sh_addr := (16, 8), sh_offset := (24, 8),
    sh_size := (32, 8),
    phdrSize := 56, p_type := (0, 4), p_flags := (4, 4), p_offset := (8, 8),
    p_vaddr := (16, 8), p_paddr := (24, 8), p_filesz := (32, 8) }

/-- `Elf32Struct`: the `Elf32_Ehdr`/`Elf32_Shdr`/`Elf32_Phdr` layouts,
`ELFCLASS32` = 1. -/
def elf32Layout : ElfLayout :=
  { elfClass := 1, ehdrSize := 52,
    e_shoff := (32, 4), e_shentsize := (46, 2), e_shnum := (48, 2), e_shstrndx := (50, 2),
    e_phoff := (28, 4), e_phentsize := (42, 2), e_phnum := (44, 2),
    shdrSize := 40, sh_name := (0, 4), sh_addr := (12, 4), sh_offset := (16, 4),
    sh_size := (20, 4),
    phdrSize := 32, p_type := (0, 4), p_flags := (24, 4), p_offset := (4, 4),
    p_vaddr := (8, 4), p_paddr := (12, 4), p_filesz := (16, 4) }

/-- A parsed section header (the fields of `Elf_Shdr` the reader consumes:
name index, virtual address, file offset, size). -/
structure SecHeader where
  sh_name : Nat
  sh_addr : Nat
  sh_offset : Nat
  sh_size : Nat
deriving DecidableEq, Repr

/-- A parsed program header (the fields of `Elf_Phdr` the reader consumes). -/
structure ProgHeader where
  p_type : Nat
  p_flags : Nat
  p_offset : Nat
  p_vaddr : Nat
  p_paddr : Nat
  p_filesz : Nat
deriving DecidableEq, Repr

def PT_LOAD : Nat := 1

def PF_X : Nat := 1

/-- `ULLONG_MAX`, the "no executable loadable segment" sentinel of
`ReadMinVirtualAddress`. -/
def ULLONG_MAX : Nat := 2 ^ 64 - 1

/-- The scan of `ElfReaderImpl::ReadMinVirtualAddress` (source lines
188–196): keep the smallest `p_vaddr` over `PT_LOAD` segments with `PF_X`
set, starting from `ULLONG_MAX`. -/
def minVaddrLoop : List ProgHeader → Nat → Nat
  | [], acc => acc
  | ph :: rest, acc =>
    minVaddrLoop rest
      (if ph.p_type = PT_LOAD ∧ ph.p_flags &&& PF_X ≠ 0 then
        (if acc > ph.p_vaddr then ph.p_vaddr else acc)
      else acc)

/-- `ElfReaderImpl::ReadMinVirtualAddress` (source lines 187–197). -/
def ReadMinVirtualAddress (phs : List ProgHeader) : Nat :=
  minVaddrLoop phs ULLONG_MAX

/-- Decode a raw `Elf_Shdr` image through a layout. -/
def parseShdr (L : ElfLayout) (bytes : List Nat) : SecHeader :=
  { sh_name := fld bytes L.sh_name, sh_addr := fld bytes L.sh_addr,
    sh_offset := fld bytes L.sh_offset, sh_size := fld bytes L.sh_size }

/-- Decode a raw `Elf_Phdr` image through a layout. -/
def parsePhdr (L : ElfLayout) (bytes : List Nat) : ProgHeader :=
  { p_type := fld bytes L.p_type, p_flags := fld bytes L.p_flags,
    p_offset := fld bytes L.p_offset, p_vaddr := fld bytes L.p_vaddr,
    p_paddr := fld bytes L.p_paddr, p_filesz := fld bytes L.p_filesz }

/-- Resolve a section name in the loaded string table: the bytes from the
name offset up to the next null (`&string_section_[sec.sh_name]`). -/
def nameAt (strtab : List Nat) (idx : Nat) : List Nat :=
  (strtab.drop idx).takeWhile (fun b => b ≠ 0)

/-- Association-list insert with replacement for byte-string keys (the
`sec_headers_[name] = sec` map assignment). -/
def insertSec : List (List Nat × SecHeader) → List Nat → SecHeader →
    List (List Nat × SecHeader)
  | [], k, v => [(k, v)]
  | (k', v') :: rest, k, v =>
    if k' = k then (k, v) :: rest else (k', v') :: insertSec rest k v

/-- The section-header loop of `ReadSecHeaders` (source lines 142–153):
`count` entries read at stride `shentsize` from `offset`; entries whose
resolved name is empty are skipped, the rest inserted by name. -/
def secHeaderLoop (L : ElfLayout) (file strtab : List Nat) (stride : Nat) :
    Nat → Nat → List (List Nat × SecHeader) → Option (List (List Nat × SecHeader))
  | 0, _, acc => some acc
  | count + 1, offset, acc =>
    match ReadFully file L.shdrSize offset with
    | none => none
    | some secBytes =>
      let sec := parseShdr L secBytes
      let name := nameAt strtab sec.sh_name
      if name = [] then
        secHeaderLoop L file strtab stride count (offset + stride) acc
      else
        secHeaderLoop L file strtab stride count (offset + stride) (insertSec acc name sec)

/-- `ElfReaderImpl::ReadSecHeaders` (source lines 128–163): fail when the
string-table section index is zero; read that single section header at
`e_shoff + e_shstrndx * e_shentsize`, load its whole byte range as the name
string table, then collect every named section header. -/
def readSecHeadersM (L : ElfLayout) (file hdr : List Nat) :
    Option (List (List Nat × SecHeader)) :=
  if fld hdr L.e_shstrndx = 0 then none
  else
    match ReadFully file L.shdrSize
        (fld hdr L.e_shoff + fld hdr L.e_shstrndx * fld hdr L.e_shentsize) with
    | none => none
    | some strSecBytes =>
      let strSec := parseShdr L strSecBytes
      match ReadFully file strSec.sh_size strSec.sh_offset with
      | none => none
      | some strtab =>
        secHeaderLoop L file strtab (fld hdr L.e_shentsize)
          (fld hdr L.e_shnum) (fld hdr L.e_shoff) []

/-- The program-header loop of `ReadProgramHeaders` (source lines 166–173):
`count` entries read at stride `phentsize` from `offset`, collected in
on-disk order. -/
def progHeaderLoop (L : ElfLayout) (file : List Nat) (stride : Nat) :
    Nat → Nat → List ProgHeader → Option (List ProgHeader)
  | 0, _, acc => some acc
  | count + 1, offset, acc =>
    match ReadFully file L.phdrSize offset with
    | none => none
    | some phBytes =>
      progHeaderLoop L file stride count (offset + stride) (acc ++ [parsePhdr L phBytes])

/-- `ElfReaderImpl::ReadProgramHeaders` (source lines 165–185). -/
def readProgramHeadersM (L : ElfLayout) (file hdr : List Nat) : Option (List ProgHeader) :=
  progHeaderLoop L file (fld hdr L.e_phentsize) (fld hdr L.e_phnum) (fld hdr L.e_phoff) []

/-- The ELF magic `0x7F 'E' 'L' 'F'` occupies the first four identification
bytes. -/
def magicOk (ident : List Nat) : Bool :=
  ident.take 4 = [0x7f, 0x45, 0x4c, 0x46]

/-- The `EI_CLASS` identification byte. -/
def identClass (ident : List Nat) : Nat := fld ident (4, 1)

/-- The width-class dispatch of `ElfReader::Create` (source lines 483–490):
`ELFCLASS64` → the 64-bit layout, `ELFCLASS32` → the 32-bit layout, anything
else fails. -/
def classLayout (cls : Nat) : Option ElfLayout :=
  if cls = 2 then some elf64Layout
  else if cls = 1 then some elf32Layout
  else none

/-- `ElfReaderImpl::ReadHeader` (source lines 105–126): read the full file
header at offset 0, re-verify the magic, and verify the identification class
matches the instantiated width; returns the raw header image. -/
def readHeaderM (L : ElfLayout) (file : List Nat) : Option (List Nat) :=
  match ReadFully file L.ehdrSize 0 with
  | none => none
  | some hdr =>
    if magicOk hdr then
      if identClass hdr = L.elfClass then some hdr else none
    else none

/-- The reader object `ElfReader::Create` hands back: the name→section
mapping, the program-header sequence and the minimum executable load
address computed by `ReadMinVaddr`. -/
structure ElfReaderRec where
  secHeaders : List (List Nat × SecHeader)
  programHeaders : List ProgHeader
  minVaddr : Nat
deriving DecidableEq, Repr

/-- `ElfReader::Create` (source lines 466–497) over the file's bytes: read
the 16 identification bytes, check the magic, dispatch on the width class,
then run `ReadHeader`, `ReadSecHeaders`, `ReadProgramHeaders` and
`ReadMinVaddr`; any failing step makes the whole open return nothing. -/
def CreateM (file : List Nat) : Option ElfReaderRec :=
  match ReadFully file 16 0 with
  | none => none
  | some ident =>
    if magicOk ident then
      match classLayout (identClass ident) with
      | none => none
      | some L =>
        match readHeaderM L file with
        | none => none
        | some hdr =>
          match readSecHeadersM L file hdr with
          | none => none
          | some secs =>
            match readProgramHeadersM L file hdr with
            | none => none
            | some phs =>
              some { secHeaders := secs, programHeaders := phs,
                     minVaddr := ReadMinVirtualAddress phs }
    else none

/-! ## Reader cache, translated from `ElfReaderManager::OpenElf`
(source lines 502–509)

The process-wide `reader_table_` maps a path to the stored outcome of the
one `ElfReader::Create` attempt for that path — `none` standing for the
"failed to open" outcome kept in the table as a null `unique_ptr`. -/

/-- Association-list insert with replacement for string keys
(`reader_table_[filename] = ...`). -/
def insertR : List (String × Option ElfReaderRec) → String → Option ElfReaderRec →
    List (String × Option ElfReaderRec)
  | [], k, v => [(k, v)]
  | (k', v') :: rest, k, v =>
    if k' = k then (k, v) :: rest else (k', v') :: insertR rest k v

/-- Association-list lookup (`reader_table_.find(filename)`). -/
def lookupR : List (String × Option ElfReaderRec) → String → Option (Option ElfReaderRec)
  | [], _ => none
  | (k', v') :: rest, k => if k' = k then some v' else lookupR rest k

/-- `ElfReaderManager::OpenElf`: return the stored outcome when `path` is
already in the table; otherwise invoke the open routine, store its outcome
(success or failure) and return it.  `createFn` abstracts
`ElfReader::Create` over the filesystem (in the program,
`fun p => (fs p).bind CreateM` for the file contents `fs`). -/
def OpenElfM (createFn : String → Option ElfReaderRec)
    (table : List (String × Option ElfReaderRec)) (path : String) :
    Option ElfReaderRec × List (String × Option ElfReaderRec) :=
  match lookupR table path with
  | some r => (r, table)
  | none => (createFn path, insertR table path (createFn path))

/-! ## Auxiliary definitions used by the theorems -/

/-- A program header that is a loadable executable segment
(`p_type == PT_LOAD && p_flags & PF_X`). -/
def isExecLoad (ph : ProgHeader) : Prop :=
  ph.p_type = PT_LOAD ∧ ph.p_flags &&& PF_X ≠ 0

instance (ph : ProgHeader) : Decidable (isExecLoad ph) := by
  unfold isExecLoad; infer_instance

/-- A diagnostic-pass CIE is the decode-pass CIE with the two fields the
diagnostic pass does not record (`section64`, the instruction bytes) at
their defaults. -/
def stripCie (c : Cie) : Cie :=
  { c with section64 := false, insts := [] }

/-- Lift `stripCie` over a CIE table. -/
def stripMap (l : List (Nat × Cie)) : List (Nat × Cie) :=
  l.map fun kv => (kv.1, stripCie kv.2)

/-! ### Concrete sample sections and files

`ehSampleGood` is a well-formed `.eh_frame` section: one CIE at offset 0
(length 9, ID 0, version 1, empty augmentation, code alignment 1, data
alignment −4, return register 16) followed by one FDE at offset 13 (length
20, ID 17 — the backward displacement from its ID field at offset 17 to the
CIE at offset 0 — then an 8-byte absolute initial location `0x1000` and an
8-byte address range `0x20`). -/

def ehSampleGood : List Nat :=
  [9, 0, 0, 0, 0, 0, 0, 0, 1, 0, 1, 0x7c, 16] ++
  [20, 0, 0, 0, 17, 0, 0, 0, 0, 16, 0, 0, 0, 0, 0, 0, 32, 0, 0, 0, 0, 0, 0, 0]

/-- The same CIE followed by an FDE whose ID (16) yields the CIE offset
`17 − 16 = 1`, where no CIE lives: an unresolved CIE reference. -/
def ehSampleBad : List Nat :=
  [9, 0, 0, 0, 0, 0, 0, 0, 1, 0, 1, 0x7c, 16] ++ [4, 0, 0, 0, 16, 0, 0, 0]

/-- A one-record section: an FDE (ID 3, so CIE offset `4 − 3 = 1`) with no
CIE before it. -/
def ehSampleLoneFde : List Nat := [4, 0, 0, 0, 3, 0, 0, 0]

/-- A decoded CIE at offset 0 (as produced for `ehSampleGood`'s first
record). -/
def cieSample : Cie :=
  { offset := 0, section64 := false, augmentation := [], address_size := 8,
    data_alignment_factor := -4, fde_pointer_encoding := 0, lsda_encoding := 0,
    insts := [] }

/-- A CIE declaring a PC-relative 4-byte-signed FDE pointer encoding
(`DW_EH_PE_pcrel | DW_EH_PE_sdata4` = 0x1b). -/
def ciePcrel : Cie :=
  { offset := 0, section64 := false, augmentation := [], address_size := 8,
    data_alignment_factor := -4, fde_pointer_encoding := 0x1b, lsda_encoding := 0,
    insts := [] }

/-- An FDE record for `ciePcrel`: length 12, ID 4 (CIE offset `8 − 4 · ... =
0`), 4-byte initial location `0x1000`, 4-byte address range `0x20`. -/
def fdeSamplePcrel : List Nat :=
  [12, 0, 0, 0, 4, 0, 0, 0, 0, 16, 0, 0, 32, 0, 0, 0]

/-- The FDE decoded from `fdeSamplePcrel` against `ciePcrel` with the
section mapped at `0x2000`: function start `0x1000 + 0x2000 + 8 = 12296`,
end `12296 + 0x20 = 12328`. -/
def fdePcrelExpected : Fde :=
  { cie := ciePcrel, section64 := false, func_start := 12296, func_end := 12328,
    insts := [] }

/-- The FDE decoded from `ehSampleGood`'s second record: absolute initial
location `0x1000`, address range `0x20`. -/
def fdeGoodExpected : Fde :=
  { cie := cieSample, section64 := false, func_start := 4096, func_end := 4128,
    insts := [] }

/-- A 64-byte ELF64 file image whose section-name string-table index
(`e_shstrndx`, bytes 62–63) is zero: magic + `ELFCLASS64`, all other header
fields zero. -/
def fileNoStrTab : List Nat :=
  [0x7f, 0x45, 0x4c, 0x46, 2] ++ List.replicate 59 0

/-- Two program headers: an executable `PT_LOAD` at `0x1000` and a
read/write (non-executable) `PT_LOAD` at `0x500`. -/
def phsSample : List ProgHeader :=
  [{ p_type := 1, p_flags := 5, p_offset := 0, p_vaddr := 0x1000, p_paddr := 0, p_filesz := 0 },
   { p_type := 1, p_flags := 6, p_offset := 0, p_vaddr := 0x500, p_paddr := 0, p_filesz := 0 }]

/-! ## Helper lemmas -/

theorem exc_ok_bind {α β : Type} (x : α) (f : α → Except EhErr β) :
    (Except.ok x >>= f) = f x := rfl

theorem exc_pure_bind {α β : Type} (x : α) (f : α → Except EhErr β) :
    ((pure x : Except EhErr α) >>= f) = f x := rfl

theorem exc_err_bind {α β : Type} (e : EhErr) (f : α → Except EhErr β) :
    ((Except.error e : Except EhErr α) >>= f) = Except.error e := rfl

theorem minVaddrLoop_le (l : List ProgHeader) : ∀ acc, minVaddrLoop l acc ≤ acc := by
  induction l with
  | nil => intro acc; simp [minVaddrLoop]
  | cons ph rest ih =>
    intro acc
    simp only [minVaddrLoop]
    refine le_trans (ih _) ?_
    split_ifs <;> omega

theorem minVaddrLoop_skip (l : List ProgHeader) :
    ∀ acc, (∀ ph ∈ l, ¬ isExecLoad ph) → minVaddrLoop l acc = acc := by
  induction l with
  | nil => intro acc _; simp [minVaddrLoop]
  | cons ph rest ih =>
    intro acc h
    have hph : ¬ (ph.p_type = PT_LOAD ∧ ph.p_flags &&& PF_X ≠ 0) := by
      simpa [isExecLoad] using h ph (by simp)
    simp only [minVaddrLoop, if_neg hph]
    exact ih acc fun q hq => h q (List.mem_cons_of_mem _ hq)

theorem minVaddrLoop_le_of_mem (l : List ProgHeader) :
    ∀ acc ph, ph ∈ l → isExecLoad ph → minVaddrLoop l acc ≤ ph.p_vaddr := by
  induction l with
  | nil => intro acc ph h; cases h
  | cons q rest ih =>
    intro acc ph hmem hex
    simp only [minVaddrLoop]
    rcases List.mem_cons.mp hmem with rfl | hmem'
    · refine le_trans (minVaddrLoop_le rest _) ?_
      rw [if_pos (by simpa [isExecLoad] using hex)]
      split_ifs <;> omega
    · exact ih _ ph hmem' hex

theorem minVaddrLoop_mem (l : List ProgHeader) :
    ∀ acc, minVaddrLoop l acc = acc ∨
      ∃ ph, ph ∈ l ∧ isExecLoad ph ∧ minVaddrLoop l acc = ph.p_vaddr := by
  induction l with
  | nil => intro acc; left; simp [minVaddrLoop]
  | cons q rest ih =>
    intro acc
    simp only [minVaddrLoop]
    by_cases hq : isExecLoad q
    · rw [if_pos (by simpa [isExecLoad] using hq)]
      by_cases hgt : acc > q.p_vaddr
      · rw [if_pos hgt]
        rcases ih q.p_vaddr with h | ⟨ph, hm, he, hv⟩
        · right; exact ⟨q, by simp, hq, h⟩
        · right; exact ⟨ph, List.mem_cons_of_mem _ hm, he, hv⟩
      · rw [if_neg hgt]
        rcases ih acc with h | ⟨ph, hm, he, hv⟩
        · left; exact h
        · right; exact ⟨ph, List.mem_cons_of_mem _ hm, he, hv⟩
    · rw [if_neg (by simpa [isExecLoad] using hq)]
      rcases ih acc with h | ⟨ph, hm, he, hv⟩
      · left; exact h
      · right; exact ⟨ph, List.mem_cons_of_mem _ hm, he, hv⟩

theorem lookupR_insertR (t : List (String × Option ElfReaderRec)) (p : String)
    (v : Option ElfReaderRec) : lookupR (insertR t p v) p = some v := by
  induction t with
  | nil => simp [insertR, lookupR]
  | cons kv rest ih =>
    obtain ⟨k', v'⟩ := kv
    by_cases h : k' = p
    · simp [insertR, lookupR, h]
    · simp [insertR, lookupR, h, ih]

/-! ## Claims -/

/-- C6: `ReadMinVirtualAddress` returns the smallest virtual address among
program headers with `type == PT_LOAD` and the executable flag set, and the
`ULLONG_MAX` sentinel when no program header is an executable loadable
segment.  (`hw` records that virtual addresses are 64-bit machine values.) -/
theorem minLoadVirtualAddress_spec (phs : List ProgHeader)
    (hw : ∀ ph ∈ phs, ph.p_vaddr ≤ ULLONG_MAX) :
    ((∀ ph ∈ phs, ¬ isExecLoad ph) → ReadMinVirtualAddress phs = ULLONG_MAX) ∧
    (∀ ph ∈ phs, isExecLoad ph → ReadMinVirtualAddress phs ≤ ph.p_vaddr) ∧
    ((∃ ph, ph ∈ phs ∧ isExecLoad ph) →
      ∃ ph, ph ∈ phs ∧ isExecLoad ph ∧ ReadMinVirtualAddress phs = ph.p_vaddr) := by
  unfold ReadMinVirtualAddress
  refine ⟨fun h => minVaddrLoop_skip phs ULLONG_MAX h,
          fun ph hm he => minVaddrLoop_le_of_mem phs ULLONG_MAX ph hm he, ?_⟩
  rintro ⟨m, hm, hex⟩
  rcases minVaddrLoop_mem phs ULLONG_MAX with h | ⟨ph, hmem, he, hv⟩
  · refine ⟨m, hm, hex, ?_⟩
    have h1 := minVaddrLoop_le_of_mem phs ULLONG_MAX m hm hex
    have h2 := hw m hm
    omega
  · exact ⟨ph, hmem, he, hv⟩

/-- C6 witness: on a file with one executable `PT_LOAD` at `0x1000` and one
non-executable `PT_LOAD` at `0x500`, the minimum executable load address is
`0x1000`. -/
theorem minLoadVirtualAddress_spec_witness :
    ReadMinVirtualAddress phsSample ≤ 0x1000 ∧ ReadMinVirtualAddress phsSample = 0x1000 :=
  ⟨(minLoadVirtualAddress_spec phsSample (by decide)).2.1
      ⟨1, 5, 0, 0x1000, 0, 0⟩ (by decide) (by decide),
   by decide⟩

/-- C9: the reader cache performs at most one open attempt per path.  A
path not yet in the table gets one `Create` invocation whose outcome —
including a failed open stored as `none` — is recorded; a path already in
the table is answered from the table; and a second `OpenElf` on the same
path returns exactly the stored outcome and table, for *any* open routine —
i.e. without invoking open again. -/
theorem openElf_cache_spec (createFn : String → Option ElfReaderRec)
    (table : List (String × Option ElfReaderRec)) (path : String) :
    (lookupR table path = none →
      OpenElfM createFn table path = (createFn path, insertR table path (createFn path))) ∧
    (∀ r, lookupR table path = some r → OpenElfM createFn table path = (r, table)) ∧
    (∀ createFn2,
      OpenElfM createFn2 (OpenElfM createFn table path).2 path =
        ((OpenElfM createFn table path).1, (OpenElfM createFn table path).2)) := by
  refine ⟨fun h => by simp [OpenElfM, h], fun r h => by simp [OpenElfM, h], fun c2 => ?_⟩
  cases h : lookupR table path with
  | some r => simp [OpenElfM, h]
  | none => simp [OpenElfM, h, lookupR_insertR]

/-- C9 witness: a failed open for a fresh path is attempted once and stored
as "no usable reader". -/
theorem openElf_cache_spec_witness :
    OpenElfM (fun _ => none) [] "libfoo.so" = (none, [("libfoo.so", none)]) := by
  rw [(openElf_cache_spec (fun _ => none) [] "libfoo.so").1 rfl]
  simp [insertR]

/-- C5: frame-info decoding is idempotent per reader instance.  Once the
`READ_EH_FRAME_SECTION` flag is set, `ReadEhFrame` returns success
immediately with the tables untouched, independent of the section data (no
re-read, no re-parse); a successful call sets the flag; a failed call
leaves the flag as it was (no success cached); and with the flag clear the
call performs the full decode. -/
theorem readEhFrame_idempotent (secAddr : Nat) (ehData : Option (List Nat))
    (logFlag : Bool) (st : EhReaderState) :
    (st.ehFrameRead = true →
      ∀ sa ed lf, ReadEhFrameM sa ed lf st = (.ok, st)) ∧
    ((ReadEhFrameM secAddr ehData logFlag st).1 = .ok →
      (ReadEhFrameM secAddr ehData logFlag st).2.ehFrameRead = true) ∧
    ((ReadEhFrameM secAddr ehData logFlag st).1 ≠ .ok →
      (ReadEhFrameM secAddr ehData logFlag st).2.ehFrameRead = st.ehFrameRead) ∧
    (st.ehFrameRead = false →
      ReadEhFrameM secAddr ehData logFlag st = ehFrameDecodeOnce secAddr ehData logFlag st) := by
  refine ⟨fun h sa ed lf => by simp [ReadEhFrameM, h], ?_, ?_, fun h => by simp [ReadEhFrameM, h]⟩
  all_goals
    by_cases hf : st.ehFrameRead
    case pos => simp [ReadEhFrameM, hf]
    case neg =>
      simp only [ReadEhFrameM, hf, if_false, Bool.false_eq_true]
      cases ehData with
      | none => simp [ehFrameDecodeOnce, hf]
      | some data =>
        simp only [ehFrameDecodeOnce]
        rcases hR : ehLoopR secAddr data (data.length + 1) 0 ⟨st.cies, st.fdes⟩ with ⟨out, t⟩
        cases logFlag
        · cases out <;> simp_all
        · rcases hL : ehLoopL secAddr data (data.length + 1) 0 [] with ⟨lout, lcies⟩
          cases lout <;> cases out <;> simp_all

/-- C5 witness: with the flag already set, `ReadEhFrame` returns success
without consulting any section data. -/
theorem readEhFrame_idempotent_witness :
    ReadEhFrameM 0 none false ⟨true, [], []⟩ = (.ok, ⟨true, [], []⟩) :=
  (readEhFrame_idempotent 0 none false ⟨true, [], []⟩).1 rfl 0 none false

/-- C8: `Create` fails when the section-name string-table index in the file
header is zero, and a returned reader object implies every step of the open
— identification read, magic check, class dispatch, header read, section
headers, program headers — succeeded, so no partially-usable reader is ever
handed back. -/
theorem create_error_handling (file : List Nat) :
    (∀ ident L hdr, ReadFully file 16 0 = some ident → magicOk ident = true →
      classLayout (identClass ident) = some L → readHeaderM L file = some hdr →
      fld hdr L.e_shstrndx = 0 → CreateM file = none) ∧
    (∀ r, CreateM file = some r → ∃ ident L hdr secs phs,
      ReadFully file 16 0 = some ident ∧ magicOk ident = true ∧
      classLayout (identClass ident) = some L ∧ readHeaderM L file = some hdr ∧
      readSecHeadersM L file hdr = some secs ∧
      readProgramHeadersM L file hdr = some phs ∧
      r = ⟨secs, phs, ReadMinVirtualAddress phs⟩) := by
  constructor
  · intro ident L hdr h1 h2 h3 h4 h5
    unfold CreateM
    rw [h1]
    simp only [h2, if_true, h3, h4]
    unfold readSecHeadersM
    simp [h5]
  · intro r h
    unfold CreateM at h
    split at h
    next h1 => exact absurd h (by simp)
    next ident h1 =>
      split at h
      case isTrue h2 =>
        split at h
        next h3 => exact absurd h (by simp)
        next L h3 =>
          split at h
          next h4 => exact absurd h (by simp)
          next hdr h4 =>
            split at h
            next h5 => exact absurd h (by simp)
            next secs h5 =>
              split at h
              next h6 => exact absurd h (by simp)
              next phs h6 =>
                simp only [Option.some.injEq] at h
                exact ⟨ident, L, hdr, secs, phs, h1, h2, h3, h4, h5, h6, h.symm⟩
      case isFalse h2 => exact absurd h (by simp)

/-- C8 witness: a 64-byte ELF64 image whose magic and class are valid but
whose `e_shstrndx` is zero is rejected by `Create`. -/
theorem create_error_handling_witness : CreateM fileNoStrTab = none :=
  (create_error_handling fileNoStrTab).1
    ([0x7f, 0x45, 0x4c, 0x46, 2] ++ List.replicate 11 0) elf64Layout fileNoStrTab
    (by decide) (by decide) (by decide) (by decide) (by decide)

/-- C2: when the decode pass reaches a record classified as an FDE
(sentinel-promoted ID nonzero) whose computed CIE offset resolves to no
entry of the current CIE table, the decode returns failure — the
recoverable `false`, not an abort — and the tables as decoded up to that
record (`st`) are returned unchanged, so every entry built before the
failing record stays present and visible. -/
theorem fde_unresolved_cie_fail (secAddr : Nat) (data : List Nat) (fuel pos : Nat)
    (st : EhTables) (s64 : Bool) (sb ul p2 id0 p3 : Nat)
    (hpos : pos < data.length)
    (hh : recordHead data pos = .ok (s64, sb, ul, p2))
    (hul : ul ≠ 0)
    (hid : readU data p2 sb = .ok (id0, p3))
    (hnz : (if s64 = false ∧ id0 = DW_CIE_ID_32 then DW_CIE_ID_64 else id0) ≠ 0)
    (hlook : lookupA st.cies
      (sub64 (p3 - sb)
        (if s64 = false ∧ id0 = DW_CIE_ID_32 then DW_CIE_ID_64 else id0)) = none) :
    ehLoopR secAddr data (fuel + 1) pos st = (.fail, st) := by
  have hfde : fdeBodyR secAddr data p3 sb
      (if s64 = false ∧ id0 = DW_CIE_ID_32 then DW_CIE_ID_64 else id0)
      (p2 + ul) s64 st.cies = .error .fail := by
    unfold fdeBodyR
    simp only [hlook]
  have hbody : recordBodyR secAddr data pos p2 sb ul s64 st = .error .fail := by
    unfold recordBodyR
    simp only [hid, exc_ok_bind, is_eh_frame, if_true, if_neg hnz, hfde, exc_err_bind]
  simp only [ehLoopR, if_pos hpos, hh, if_neg hul, hbody]

/-- C2 witness: a section whose only record is an FDE (ID 3, CIE offset 1)
decoded against a table already holding one CIE at offset 0 fails, and that
previously decoded CIE is still in the returned table. -/
theorem fde_unresolved_cie_fail_witness :
    ehLoopR 0 ehSampleLoneFde 1 0 ⟨[(0, cieSample)], []⟩ =
      (.fail, ⟨[(0, cieSample)], []⟩) :=
  fde_unresolved_cie_fail 0 ehSampleLoneFde 0 0 ⟨[(0, cieSample)], []⟩ false 4 4 4 3 8
    (by decide) (by decide) (by decide) (by decide) (by decide) (by decide)

/-- C4: malformed augmentation is non-continuable.  A CIE whose
augmentation string is non-empty and does not start with `'z'` (122) makes
the CIE body abort, and a `'z'`-form augmentation character other than
`'R'` (82), `'P'` (80) or `'L'` (76) makes the augmentation loop abort —
both produce the distinguished `aborted` error, not the recoverable `fail`
that truncated reads and unresolved references produce. -/
theorem malformed_augmentation_aborts :
    (∀ (data : List Nat) (pos cend off : Nat) (s64 : Bool) (v p1 : Nat)
        (aug : List Nat) (p2 : Nat),
      readU data pos 1 = .ok (v, p1) →
      readStrU data p1 = .ok (aug, p2) →
      aug ≠ [] → aug.head? ≠ some 122 →
      cieBodyR data pos cend off s64 = .error .aborted) ∧
    (∀ (data : List Nat) (c : Nat) (rest : List Nat) (pos : Nat) (cie : Cie),
      c ≠ 82 → c ≠ 80 → c ≠ 76 →
      augLoop data (c :: rest) pos cie = .error .aborted) := by
  constructor
  · intro data pos cend off s64 v p1 aug p2 h1 h2 hne hz
    have hcond : ¬ (aug = [] ∨ aug.head? = some 122) := by
      rintro (h | h)
      · exact hne h
      · exact hz h
    unfold cieBodyR
    simp only [h1, exc_ok_bind, h2, if_neg hcond]
  · intro data c rest pos cie h82 h80 h76
    unfold augLoop
    simp [h82, h80, h76]

/-- C4 witness: a CIE body whose augmentation string is `"A"` aborts, and
so does the augmentation loop on the unknown character `'X'` (88). -/
theorem malformed_augmentation_aborts_witness :
    cieBodyR [1, 65, 0] 0 3 0 false = .error .aborted ∧
    augLoop [] [88] 0 cieSample = .error .aborted :=
  ⟨malformed_augmentation_aborts.1 [1, 65, 0] 0 3 0 false 1 1 [65] 3
      (by decide) (by decide) (by decide) (by decide),
   malformed_augmentation_aborts.2 [] 88 [] 0 cieSample
      (by decide) (by decide) (by decide)⟩

theorem augLoop_address_size (data : List Nat) :
    ∀ (cs : List Nat) (pos : Nat) (c : Cie) (r : Cie × Nat),
      augLoop data cs pos c = .ok r → r.1.address_size = c.address_size := by
  intro cs
  induction cs with
  | nil =>
    intro pos c r h
    unfold augLoop at h
    cases h
    rfl
  | cons x rest ih =>
    intro pos c r h
    unfold augLoop at h
    by_cases h82 : x = 82
    · rw [if_pos h82] at h
      cases hr : readU data pos 1 with
      | error e => simp [hr, exc_err_bind] at h
      | ok vp =>
        obtain ⟨enc, p⟩ := vp
        simp only [hr, exc_ok_bind] at h
        simpa using ih p _ r h
    · rw [if_neg h82] at h
      by_cases h80 : x = 80
      · rw [if_pos h80] at h
        cases hr : readU data pos 1 with
        | error e => simp [hr, exc_err_bind] at h
        | ok vp =>
          obtain ⟨enc, p⟩ := vp
          simp only [hr, exc_ok_bind] at h
          cases hr2 : readEhEncodingU data p enc with
          | error e => simp [hr2, exc_err_bind] at h
          | ok vp2 =>
            obtain ⟨ph, p2⟩ := vp2
            simp only [hr2, exc_ok_bind] at h
            exact ih p2 _ r h
      · rw [if_neg h80] at h
        by_cases h76 : x = 76
        · rw [if_pos h76] at h
          cases hr : readU data pos 1 with
          | error e => simp [hr, exc_err_bind] at h
          | ok vp =>
            obtain ⟨enc, p⟩ := vp
            simp only [hr, exc_ok_bind] at h
            simpa using ih p _ r h
        · rw [if_neg h76] at h
          exact absurd h (by simp)

theorem cieTail_address_size (data : List Nat) (cend : Nat) (aug : List Nat)
    (p6 : Nat) (cie0 : Cie) (cie : Cie)
    (h : (if aug.head? = some 122 then do
            let d ← readULEBU data p6
            let y ← augLoop data aug.tail d.2 cie0
            pure { y.1 with insts := sliceBytes data y.2 cend }
          else
            pure { cie0 with insts := sliceBytes data p6 cend }) = Except.ok cie) :
    cie.address_size = cie0.address_size := by
  by_cases hzz : aug.head? = some 122
  · rw [if_pos hzz] at h
    cases h8 : readULEBU data p6 with
    | error e => simp [h8, exc_err_bind] at h
    | ok lp =>
      obtain ⟨al, q3⟩ := lp
      simp only [h8, exc_ok_bind] at h
      cases h9 : augLoop data aug.tail q3 cie0 with
      | error e => rw [h9] at h; simp [exc_err_bind] at h
      | ok cp1 =>
        obtain ⟨cie1, p7⟩ := cp1
        rw [h9] at h
        simp only [exc_ok_bind] at h
        have ha := augLoop_address_size data aug.tail q3 _ _ h9
        simp only [pure, Except.pure, Except.ok.injEq] at h
        subst h
        simpa using ha
  · rw [if_neg hzz] at h
    simp only [pure, Except.pure, Except.ok.injEq] at h
    subst h
    rfl

/-- C10: a successfully decoded CIE body read a version byte, and when that
version is below 4 the stored address size is exactly 8 (the hard-coded
`uint8_t address_size = 8; // ELF32 or ELF64` — the decoder is one function
shared by the 32-bit and 64-bit instantiations and takes no width
parameter); only for version ≥ 4 does the stored address size come from the
record's address-size byte. -/
theorem cie_address_size_default (data : List Nat) (pos cend off : Nat) (s64 : Bool)
    (cie : Cie) (h : cieBodyR data pos cend off s64 = .ok cie) :
    ∃ v p1, readU data pos 1 = .ok (v, p1) ∧
      ((v < 4 ∧ cie.address_size = 8) ∨
       (4 ≤ v ∧ ∃ aug p2 a p3, readStrU data p1 = .ok (aug, p2) ∧
         readU data p2 1 = .ok (a, p3) ∧ cie.address_size = a)) := by
  unfold cieBodyR at h
  cases h1 : readU data pos 1 with
  | error e => simp [h1, exc_err_bind] at h
  | ok vp =>
    obtain ⟨v, p1⟩ := vp
    simp only [h1, exc_ok_bind] at h
    refine ⟨v, p1, rfl, ?_⟩
    cases h2 : readStrU data p1 with
    | error e => simp [h2, exc_err_bind] at h
    | ok ap =>
      obtain ⟨aug, p2⟩ := ap
      simp only [h2, exc_ok_bind] at h
      by_cases hcond : aug = [] ∨ aug.head? = some 122
      · rw [if_pos hcond] at h
        by_cases hv : v ≥ 4
        · rw [if_pos hv] at h
          cases h3 : readU data p2 1 with
          | error e => simp [h3, exc_err_bind] at h
          | ok aq =>
            obtain ⟨a, q⟩ := aq
            simp only [h3, exc_ok_bind] at h
            cases h4 : readU data q 1 with
            | error e => simp [h4, exc_err_bind] at h
            | ok sq =>
              obtain ⟨sg, q2⟩ := sq
              simp only [h4, exc_ok_bind, exc_pure_bind] at h
              refine Or.inr ⟨hv, aug, p2, a, q, rfl, h3, ?_⟩
              cases h5 : readULEBU data q2 with
              | error e => simp [h5, exc_err_bind] at h
              | ok cp =>
                obtain ⟨ca, p4⟩ := cp
                simp only [h5, exc_ok_bind] at h
                cases h6 : readSLEBU data p4 with
                | error e => simp [h6, exc_err_bind] at h
                | ok dp =>
                  obtain ⟨da, p5⟩ := dp
                  simp only [h6, exc_ok_bind] at h
                  have hv1 : ¬ v = 1 := by omega
                  rw [if_neg hv1] at h
                  cases h7 : readULEBU data p5 with
                  | error e => simp [h7, exc_err_bind] at h
                  | ok rp =>
                    obtain ⟨ra, p6⟩ := rp
                    simp only [h7, exc_ok_bind] at h
                    exact cieTail_address_size data cend aug p6 _ cie h
        · rw [if_neg hv] at h
          simp only [exc_pure_bind] at h
          refine Or.inl ⟨by omega, ?_⟩
          cases h5 : readULEBU data p2 with
          | error e => simp [h5, exc_err_bind] at h
          | ok cp =>
            obtain ⟨ca, p4⟩ := cp
            simp only [h5, exc_ok_bind] at h
            cases h6 : readSLEBU data p4 with
            | error e => simp [h6, exc_err_bind] at h
            | ok dp =>
              obtain ⟨da, p5⟩ := dp
              simp only [h6, exc_ok_bind] at h
              by_cases hv1 : v = 1
              · rw [if_pos hv1] at h
                cases h7 : readU data p5 1 with
                | error e => simp [h7, exc_err_bind] at h
                | ok rp =>
                  obtain ⟨ra, p6⟩ := rp
                  simp only [h7, exc_ok_bind] at h
                  exact cieTail_address_size data cend aug p6 _ cie h
              · rw [if_neg hv1] at h
                cases h7 : readULEBU data p5 with
                | error e => simp [h7, exc_err_bind] at h
                | ok rp =>
                  obtain ⟨ra, p6⟩ := rp
                  simp only [h7, exc_ok_bind] at h
                  exact cieTail_address_size data cend aug p6 _ cie h
      · rw [if_neg hcond] at h
        exact absurd h (by simp)

/-- C10 witness: the version-1 CIE of `ehSampleGood` (body at offset 8,
record end 13) decodes with address size 8. -/
theorem cie_address_size_default_witness :
    cieBodyR ehSampleGood 8 13 0 false = .ok cieSample ∧ cieSample.address_size = 8 := by
  refine ⟨by decide, ?_⟩
  rcases cie_address_size_default ehSampleGood 8 13 0 false cieSample (by decide) with
    ⟨v, p1, hr, hc⟩
  have hv : v = 1 := by
    have h19 : readU ehSampleGood 8 1 = Except.ok (1, 9) := by decide
    rw [h19] at hr
    injection hr with hp
    injection hp with h1 h2
    omega
  rcases hc with ⟨_, ha⟩ | ⟨hge, _⟩
  · exact ha
  · omega

theorem fdeBodyR_inv (secAddr : Nat) (data : List Nat) (pos sb cie_id cie_end : Nat)
    (s64 : Bool) (cies : List (Nat × Cie)) (fde : Fde)
    (h : fdeBodyR secAddr data pos sb cie_id cie_end s64 cies = .ok fde) :
    ∃ cie init p1 rng p2,
      lookupA cies (sub64 (pos - sb) cie_id) = some cie ∧
      fde.cie = cie ∧ fde.section64 = s64 ∧
      readEhEncodingU data pos cie.fde_pointer_encoding = .ok (init, p1) ∧
      readEhEncodingU data p1 cie.fde_pointer_encoding = .ok (rng, p2) ∧
      fde.func_start = (if cie.fde_pointer_encoding &&& 0x70 = DW_EH_PE_pcrel
        then (init + secAddr + pos) % 2 ^ 64 else init) ∧
      fde.func_end = (fde.func_start + rng) % 2 ^ 64 := by
  unfold fdeBodyR at h
  cases hl : lookupA cies (sub64 (pos - sb) cie_id) with
  | none => simp [hl] at h
  | some cie =>
    simp only [hl] at h
    cases hi : readEhEncodingU data pos cie.fde_pointer_encoding with
    | error e => simp [hi, exc_err_bind] at h
    | ok ip =>
      obtain ⟨init, p1⟩ := ip
      simp only [hi, exc_ok_bind] at h
      cases hr : readEhEncodingU data p1 cie.fde_pointer_encoding with
      | error e => simp [hr, exc_err_bind] at h
      | ok rp =>
        obtain ⟨rng, p2⟩ := rp
        simp only [hr, exc_ok_bind] at h
        by_cases hz : cie.augmentation.head? = some 122
        · rw [if_pos hz] at h
          cases ha : readULEBU data p2 with
          | error e => simp [ha, exc_err_bind] at h
          | ok ap =>
            obtain ⟨al, q⟩ := ap
            simp only [ha, exc_ok_bind, exc_pure_bind] at h
            by_cases hlsda : cie.lsda_encoding ≠ 0
            · rw [if_pos hlsda] at h
              cases hls : readEhEncodingU data q cie.lsda_encoding with
              | error e => simp [hls, exc_err_bind] at h
              | ok lp =>
                obtain ⟨lv, q2⟩ := lp
                simp only [hls, exc_ok_bind, exc_pure_bind] at h
                simp only [pure, Except.pure, Except.ok.injEq] at h
                subst h
                exact ⟨cie, init, p1, rng, p2, rfl, rfl, rfl, hi, hr, rfl, rfl⟩
            · rw [if_neg hlsda] at h
              simp only [exc_pure_bind, pure, Except.pure, Except.ok.injEq] at h
              subst h
              exact ⟨cie, init, p1, rng, p2, rfl, rfl, rfl, hi, hr, rfl, rfl⟩
        · rw [if_neg hz] at h
          simp only [exc_pure_bind] at h
          by_cases hlsda : cie.lsda_encoding ≠ 0
          · rw [if_pos hlsda] at h
            cases hls : readEhEncodingU data p2 cie.lsda_encoding with
            | error e => simp [hls, exc_err_bind] at h
            | ok lp =>
              obtain ⟨lv, q2⟩ := lp
              simp only [hls, exc_ok_bind, exc_pure_bind] at h
              simp only [pure, Except.pure, Except.ok.injEq] at h
              subst h
              exact ⟨cie, init, p1, rng, p2, rfl, rfl, rfl, hi, hr, rfl, rfl⟩
          · rw [if_neg hlsda] at h
            simp only [exc_pure_bind, pure, Except.pure, Except.ok.injEq] at h
            subst h
            exact ⟨cie, init, p1, rng, p2, rfl, rfl, rfl, hi, hr, rfl, rfl⟩

/-- C7: a successfully built FDE stores as function start the decoded
initial location plus the section's virtual address plus the byte offset of
the initial-location field when the CIE's FDE pointer encoding has the
PC-relative base (64-bit arithmetic), the raw decoded value otherwise; the
stored function end is the start plus the decoded address range (64-bit
arithmetic). -/
theorem fde_pcrel_start (secAddr : Nat) (data : List Nat) (pos sb cie_id cie_end : Nat)
    (s64 : Bool) (cies : List (Nat × Cie)) (fde : Fde) (cie : Cie) (init p1 rng p2 : Nat)
    (hcie : lookupA cies (sub64 (pos - sb) cie_id) = some cie)
    (hinit : readEhEncodingU data pos cie.fde_pointer_encoding = .ok (init, p1))
    (hrng : readEhEncodingU data p1 cie.fde_pointer_encoding = .ok (rng, p2))
    (h : fdeBodyR secAddr data pos sb cie_id cie_end s64 cies = .ok fde) :
    (cie.fde_pointer_encoding &&& 0x70 = DW_EH_PE_pcrel →
      fde.func_start = (init + secAddr + pos) % 2 ^ 64) ∧
    (cie.fde_pointer_encoding &&& 0x70 ≠ DW_EH_PE_pcrel → fde.func_start = init) ∧
    fde.func_end = (fde.func_start + rng) % 2 ^ 64 := by
  rcases fdeBodyR_inv secAddr data pos sb cie_id cie_end s64 cies fde h with
    ⟨cie', init', p1', rng', p2', hl', hc', hs', hi', hr', hfs, hfe⟩
  rw [hcie] at hl'
  injection hl' with hl'
  subst hl'
  rw [hinit] at hi'
  injection hi' with hi'
  injection hi' with hi1 hi2
  subst hi1
  subst hi2
  rw [hrng] at hr'
  injection hr' with hr'
  injection hr' with hr1 hr2
  subst hr1
  exact ⟨fun hp => by rw [hfs, if_pos hp], fun hp => by rw [hfs, if_neg hp], hfe⟩

/-- C7 witness: against `ciePcrel` (PC-relative sdata4 encoding) with the
section mapped at `0x2000`, the FDE of `fdeSamplePcrel` gets function start
`0x1000 + 0x2000 + 8` and end `start + 0x20`. -/
theorem fde_pcrel_start_witness :
    fdeBodyR 0x2000 fdeSamplePcrel 8 4 4 16 false [(0, ciePcrel)] = .ok fdePcrelExpected ∧
    fdePcrelExpected.func_start = (0x1000 + 0x2000 + 8) % 2 ^ 64 ∧
    fdePcrelExpected.func_end = (fdePcrelExpected.func_start + 0x20) % 2 ^ 64 := by
  have hthm := fde_pcrel_start 0x2000 fdeSamplePcrel 8 4 4 16 false [(0, ciePcrel)]
    fdePcrelExpected ciePcrel 0x1000 12 0x20 16 (by decide) (by decide) (by decide) (by decide)
  exact ⟨by decide, hthm.1 (by decide), hthm.2.2⟩

theorem recordBodyR_fde_inv (secAddr : Nat) (data : List Nat) (pos p2 sb ul : Nat)
    (s64 : Bool) (st : EhTables) (t' : EhTables) (id0 p3 : Nat)
    (hid : readU data p2 sb = .ok (id0, p3))
    (hnz : (if s64 = false ∧ id0 = DW_CIE_ID_32 then DW_CIE_ID_64 else id0) ≠ 0)
    (h : recordBodyR secAddr data pos p2 sb ul s64 st = .ok t') :
    ∃ fde, fdeBodyR secAddr data p3 sb
        (if s64 = false ∧ id0 = DW_CIE_ID_32 then DW_CIE_ID_64 else id0)
        (p2 + ul) s64 st.cies = .ok fde ∧
      t' = { st with fdes := insertA st.fdes fde.func_start fde } := by
  unfold recordBodyR at h
  simp only [hid, exc_ok_bind, is_eh_frame, if_true, hnz, if_false, if_neg hnz] at h
  cases hf : fdeBodyR secAddr data p3 sb
      (if s64 = false ∧ id0 = DW_CIE_ID_32 then DW_CIE_ID_64 else id0)
      (p2 + ul) s64 st.cies with
  | error e => rw [hf] at h; simp [exc_err_bind] at h
  | ok fde =>
    rw [hf] at h
    simp only [exc_ok_bind, pure, Except.pure, Except.ok.injEq] at h
    exact ⟨fde, rfl, h.symm⟩

/-- C1 (amended): under `.eh_frame` semantics a record whose
sentinel-promoted ID is nonzero is handled as an FDE, and the byte offset
of its referenced CIE equals the cursor position at the *start* of the ID
field — i.e. immediately after the length field, `p3 − sb` — minus the ID
value, in 64-bit arithmetic (`sub64`); not the position immediately after
the ID field minus the ID.  (`hwf`: the CIE table keys entries by their
byte offset.) -/
theorem fde_backward_cie_offset (secAddr : Nat) (data : List Nat) (pos p2 sb ul : Nat)
    (s64 : Bool) (st : EhTables) (t' : EhTables) (id0 p3 : Nat)
    (hid : readU data p2 sb = .ok (id0, p3))
    (hnz : (if s64 = false ∧ id0 = DW_CIE_ID_32 then DW_CIE_ID_64 else id0) ≠ 0)
    (hwf : ∀ k c, lookupA st.cies k = some c → c.offset = k)
    (h : recordBodyR secAddr data pos p2 sb ul s64 st = .ok t') :
    ∃ fde, fdeBodyR secAddr data p3 sb
        (if s64 = false ∧ id0 = DW_CIE_ID_32 then DW_CIE_ID_64 else id0)
        (p2 + ul) s64 st.cies = .ok fde ∧
      t' = { st with fdes := insertA st.fdes fde.func_start fde } ∧
      fde.cie.offset = sub64 (p3 - sb)
        (if s64 = false ∧ id0 = DW_CIE_ID_32 then DW_CIE_ID_64 else id0) := by
  rcases recordBodyR_fde_inv secAddr data pos p2 sb ul s64 st t' id0 p3 hid hnz h with
    ⟨fde, hf, ht⟩
  rcases fdeBodyR_inv secAddr data p3 sb _ (p2 + ul) s64 st.cies fde hf with
    ⟨cie, _, _, _, _, hl, hc, _, _, _, _, _⟩
  refine ⟨fde, hf, ht, ?_⟩
  rw [hc]
  exact hwf _ _ hl

/-- C1 witness: the FDE record of `ehSampleGood` (record start 13, ID field
at 17 with value 17, cursor 21 after the ID) resolves its CIE at offset
`(21 − 4) − 17 = 0`. -/
theorem fde_backward_cie_offset_witness :
    recordBodyR 0 ehSampleGood 13 17 4 20 false ⟨[(0, cieSample)], []⟩ =
      .ok ⟨[(0, cieSample)], [(4096, fdeGoodExpected)]⟩ ∧
    fdeGoodExpected.cie.offset = sub64 (21 - 4) 17 := by
  have hwf : ∀ k c, lookupA ([(0, cieSample)] : List (Nat × Cie)) k = some c →
      c.offset = k := by
    intro k c h
    unfold lookupA at h
    split at h
    · next h0 =>
      injection h with h
      subst h
      rw [← h0]
      rfl
    · exact absurd h (by simp [lookupA])
  refine ⟨by decide, ?_⟩
  rcases fde_backward_cie_offset 0 ehSampleGood 13 17 4 20 false
      ⟨[(0, cieSample)], []⟩ ⟨[(0, cieSample)], [(4096, fdeGoodExpected)]⟩ 17 21
      (by decide) (by decide) hwf (by decide) with ⟨fde, hfde, ht, hoff⟩
  have hval : fdeBodyR 0 ehSampleGood 21 4
      (if false = false ∧ 17 = DW_CIE_ID_32 then DW_CIE_ID_64 else 17) 37 false
      ([(0, cieSample)] : List (Nat × Cie)) = .ok fdeGoodExpected := by decide
  rw [hval] at hfde
  injection hfde with hfde
  subst hfde
  simpa [DW_CIE_ID_32] using hoff

/-- C1 counterexample: decoding `ehSampleGood` succeeds and its single FDE
(ID field at offset 17, cursor after the ID field at 21, ID value 17)
references the CIE at byte offset 0 — whereas the claim's formula,
position-after-the-ID-field minus ID, gives `21 − 17 = 4`, an offset where
no CIE exists. -/
theorem fde_backward_cie_offset_counterexample :
    (ReadEhFrameM 0 (some ehSampleGood) false ⟨false, [], []⟩).1 = .ok ∧
    ((ReadEhFrameM 0 (some ehSampleGood) false ⟨false, [], []⟩).2.fdes.map
      fun kv => kv.2.cie.offset) = [0] ∧
    lookupA (ReadEhFrameM 0 (some ehSampleGood) false ⟨false, [], []⟩).2.cies (21 - 17) =
      none ∧
    (0 : Nat) ≠ 21 - 17 := by decide

/-! ## Simulation of the diagnostic pass by the decode pass

The diagnostic pass performs exactly the reads and aborts of the decode
pass; its throwaway CIE table tracks the decode pass's table up to
`stripCie` (the two fields the diagnostic pass does not record), and the
recorded fields are the only ones the control flow consults.  Hence both
passes produce the same outcome from corresponding states. -/

theorem stripCie_fde_pointer_encoding (c : Cie) :
    (stripCie c).fde_pointer_encoding = c.fde_pointer_encoding := rfl

theorem stripCie_augmentation (c : Cie) :
    (stripCie c).augmentation = c.augmentation := rfl

theorem stripCie_lsda_encoding (c : Cie) :
    (stripCie c).lsda_encoding = c.lsda_encoding := rfl

theorem lookupA_stripMap (l : List (Nat × Cie)) (k : Nat) :
    lookupA (stripMap l) k = (lookupA l k).map stripCie := by
  induction l with
  | nil => simp [stripMap, lookupA]
  | cons kv rest ih =>
    obtain ⟨k', c⟩ := kv
    by_cases h : k' = k
    · simp [stripMap, lookupA, h]
    · simpa [stripMap, lookupA, h] using ih

theorem insertA_stripMap (l : List (Nat × Cie)) (k : Nat) (c : Cie) :
    insertA (stripMap l) k (stripCie c) = stripMap (insertA l k c) := by
  induction l with
  | nil => simp [stripMap, insertA]
  | cons kv rest ih =>
    obtain ⟨k', c'⟩ := kv
    by_cases h : k' = k
    · simp [stripMap, insertA, h]
    · simpa [stripMap, insertA, h] using ih

theorem augLoop_strip (data : List Nat) :
    ∀ (cs : List Nat) (pos : Nat) (c : Cie),
      augLoop data cs pos (stripCie c) =
        (augLoop data cs pos c).map fun r => (stripCie r.1, r.2) := by
  intro cs
  induction cs with
  | nil => intro pos c; simp [augLoop, Except.map]
  | cons x rest ih =>
    intro pos c
    unfold augLoop
    by_cases h82 : x = 82
    · simp only [if_pos h82]
      cases hr : readU data pos 1 with
      | error e => simp [exc_err_bind, Except.map]
      | ok vp =>
        obtain ⟨enc, p⟩ := vp
        simp only [exc_ok_bind]
        have hs : ({ stripCie c with fde_pointer_encoding := enc } : Cie) =
            stripCie { c with fde_pointer_encoding := enc } := rfl
        rw [hs, ih]
    · simp only [if_neg h82]
      by_cases h80 : x = 80
      · simp only [if_pos h80]
        cases hr : readU data pos 1 with
        | error e => simp [exc_err_bind, Except.map]
        | ok vp =>
          obtain ⟨enc, p⟩ := vp
          simp only [exc_ok_bind]
          cases hr2 : readEhEncodingU data p enc with
          | error e => simp [exc_err_bind, Except.map]
          | ok vp2 =>
            obtain ⟨ph, p2⟩ := vp2
            simp only [exc_ok_bind]
            exact ih p2 c
      · simp only [if_neg h80]
        by_cases h76 : x = 76
        · simp only [if_pos h76]
          cases hr : readU data pos 1 with
          | error e => simp [exc_err_bind, Except.map]
          | ok vp =>
            obtain ⟨enc, p⟩ := vp
            simp only [exc_ok_bind]
            have hs : ({ stripCie c with lsda_encoding := enc } : Cie) =
                stripCie { c with lsda_encoding := enc } := rfl
            rw [hs, ih]
        · simp only [if_neg h76]
          simp [Except.map]

theorem cieTail_strip (data : List Nat) (cend : Nat) (aug : List Nat) (p6 : Nat)
    (c0 : Cie) :
    (if aug.head? = some 122 then do
        let d ← readULEBU data p6
        let y ← augLoop data aug.tail d.2 (stripCie c0)
        pure y.1
      else
        pure (stripCie c0)) =
    ((if aug.head? = some 122 then do
        let d ← readULEBU data p6
        let y ← augLoop data aug.tail d.2 c0
        pure { y.1 with insts := sliceBytes data y.2 cend }
      else
        pure { c0 with insts := sliceBytes data p6 cend }) : Except EhErr Cie).map
      stripCie := by
  by_cases hzz : aug.head? = some 122
  · simp only [if_pos hzz]
    cases h8 : readULEBU data p6 with
    | error e => simp [exc_err_bind, Except.map]
    | ok lp =>
      obtain ⟨al, q3⟩ := lp
      simp only [exc_ok_bind]
      rw [augLoop_strip]
      cases h9 : augLoop data aug.tail q3 c0 with
      | error e => simp [Except.map, exc_err_bind]
      | ok cp1 =>
        obtain ⟨cie1, p7⟩ := cp1
        simp [Except.map, exc_ok_bind, stripCie, pure, Except.pure]
  · simp only [if_neg hzz]
    simp [Except.map, stripCie, pure, Except.pure]

theorem cieBodyL_strip (data : List Nat) (pos cend off : Nat) (s64 : Bool) :
    cieBodyL data pos cend off = (cieBodyR data pos cend off s64).map stripCie := by
  unfold cieBodyL cieBodyR
  cases h1 : readU data pos 1 with
  | error e => simp [exc_err_bind, Except.map]
  | ok vp =>
    obtain ⟨v, p1⟩ := vp
    simp only [exc_ok_bind]
    cases h2 : readStrU data p1 with
    | error e => simp [exc_err_bind, Except.map]
    | ok ap =>
      obtain ⟨aug, p2⟩ := ap
      simp only [exc_ok_bind]
      by_cases hcond : aug = [] ∨ aug.head? = some 122
      · simp only [if_pos hcond]
        by_cases hv : v ≥ 4
        · simp only [if_pos hv]
          cases h3 : readU data p2 1 with
          | error e => simp [exc_err_bind, Except.map]
          | ok aq =>
            obtain ⟨a, q⟩ := aq
            simp only [exc_ok_bind]
            cases h4 : readU data q 1 with
            | error e => simp [exc_err_bind, Except.map]
            | ok sq =>
              obtain ⟨sg, q2⟩ := sq
              simp only [exc_ok_bind, exc_pure_bind]
              cases h5 : readULEBU data q2 with
              | error e => simp [exc_err_bind, Except.map]
              | ok cp =>
                obtain ⟨ca, p4⟩ := cp
                simp only [exc_ok_bind]
                cases h6 : readSLEBU data p4 with
                | error e => simp [exc_err_bind, Except.map]
                | ok dp =>
                  obtain ⟨da, p5⟩ := dp
                  simp only [exc_ok_bind]
                  have hv1 : ¬ v = 1 := by omega
                  simp only [if_neg hv1]
                  cases h7 : readULEBU data p5 with
                  | error e => simp [exc_err_bind, Except.map]
                  | ok rp =>
                    obtain ⟨ra, p6⟩ := rp
                    simp only [exc_ok_bind]
                    exact cieTail_strip data cend aug p6 ⟨off, s64, aug, a, da, 0, 0, []⟩
        · simp only [if_neg hv, exc_pure_bind]
          cases h5 : readULEBU data p2 with
          | error e => simp [exc_err_bind, Except.map]
          | ok cp =>
            obtain ⟨ca, p4⟩ := cp
            simp only [exc_ok_bind]
            cases h6 : readSLEBU data p4 with
            | error e => simp [exc_err_bind, Except.map]
            | ok dp =>
              obtain ⟨da, p5⟩ := dp
              simp only [exc_ok_bind]
              by_cases hv1 : v = 1
              · simp only [if_pos hv1]
                cases h7 : readU data p5 1 with
                | error e => simp [exc_err_bind, Except.map]
                | ok rp =>
                  obtain ⟨ra, p6⟩ := rp
                  simp only [exc_ok_bind]
                  exact cieTail_strip data cend aug p6 ⟨off, s64, aug, 8, da, 0, 0, []⟩
              · simp only [if_neg hv1]
                cases h7 : readULEBU data p5 with
                | error e => simp [exc_err_bind, Except.map]
                | ok rp =>
                  obtain ⟨ra, p6⟩ := rp
                  simp only [exc_ok_bind]
                  exact cieTail_strip data cend aug p6 ⟨off, s64, aug, 8, da, 0, 0, []⟩
      · simp only [if_neg hcond]
        simp [Except.map]

theorem fdeBodyL_strip (secAddr : Nat) (data : List Nat) (pos sb cie_id cie_end : Nat)
    (s64 : Bool) (cies : List (Nat × Cie)) :
    fdeBodyL secAddr data pos sb cie_id cie_end (stripMap cies) =
      (fdeBodyR secAddr data pos sb cie_id cie_end s64 cies).map fun _ => () := by
  unfold fdeBodyL fdeBodyR
  simp only [lookupA_stripMap]
  cases hl : lookupA cies (sub64 (pos - sb) cie_id) with
  | none => simp [Except.map]
  | some cie =>
    simp only [Option.map]
    simp only [stripCie_fde_pointer_encoding, stripCie_augmentation, stripCie_lsda_encoding]
    cases hi : readEhEncodingU data pos cie.fde_pointer_encoding with
    | error e => simp [exc_err_bind, Except.map]
    | ok ip =>
      obtain ⟨init, p1⟩ := ip
      simp only [exc_ok_bind]
      cases hr : readEhEncodingU data p1 cie.fde_pointer_encoding with
      | error e => simp [exc_err_bind, Except.map]
      | ok rp =>
        obtain ⟨rng, p2⟩ := rp
        simp only [exc_ok_bind]
        by_cases hz : cie.augmentation.head? = some 122
        · simp only [if_pos hz]
          cases ha : readULEBU data p2 with
          | error e => simp [exc_err_bind, Except.map]
          | ok ap =>
            obtain ⟨al, q⟩ := ap
            simp only [exc_ok_bind, exc_pure_bind]
            by_cases hlsda : cie.lsda_encoding ≠ 0
            · simp only [if_pos hlsda]
              cases hls : readEhEncodingU data q cie.lsda_encoding with
              | error e => simp [exc_err_bind, Except.map]
              | ok lp =>
                obtain ⟨lv, q2⟩ := lp
                simp [exc_ok_bind, exc_pure_bind, Except.map, pure, Except.pure]
            · simp only [if_neg hlsda]
              simp [exc_pure_bind, Except.map, pure, Except.pure]
        · simp only [if_neg hz, exc_pure_bind]
          by_cases hlsda : cie.lsda_encoding ≠ 0
          · simp only [if_pos hlsda]
            cases hls : readEhEncodingU data p2 cie.lsda_encoding with
            | error e => simp [exc_err_bind, Except.map]
            | ok lp =>
              obtain ⟨lv, q2⟩ := lp
              simp [exc_ok_bind, exc_pure_bind, Except.map, pure, Except.pure]
          · simp only [if_neg hlsda]
            simp [exc_pure_bind, Except.map, pure, Except.pure]

theorem recordBodyL_strip (secAddr : Nat) (data : List Nat) (pos p2 sb ul : Nat)
    (s64 : Bool) (cies : List (Nat × Cie)) (fdes : List (Nat × Fde)) :
    recordBodyL secAddr data pos p2 sb ul s64 (stripMap cies) =
      (recordBodyR secAddr data pos p2 sb ul s64 ⟨cies, fdes⟩).map
        fun t => stripMap t.cies := by
  unfold recordBodyL recordBodyR
  cases hid : readU data p2 sb with
  | error e => simp [exc_err_bind, Except.map]
  | ok ip =>
    obtain ⟨id0, p3⟩ := ip
    simp only [exc_ok_bind]
    by_cases hz : (if s64 = false ∧ id0 = DW_CIE_ID_32 then DW_CIE_ID_64 else id0) = 0
    · simp only [is_eh_frame, if_true, if_pos hz]
      have hb := cieBodyL_strip data p3 (p2 + ul) pos s64
      cases hc : cieBodyR data p3 (p2 + ul) pos s64 with
      | error e =>
        rw [hc] at hb
        rw [hb]
        simp [Except.map]
      | ok c =>
        rw [hc] at hb
        rw [hb]
        simp only [Except.map, exc_ok_bind, pure, Except.pure]
        rw [insertA_stripMap]
    · simp only [is_eh_frame, if_true, if_neg hz]
      have hb := fdeBodyL_strip secAddr data p3 sb
        (if s64 = false ∧ id0 = DW_CIE_ID_32 then DW_CIE_ID_64 else id0) (p2 + ul) s64 cies
      cases hf : fdeBodyR secAddr data p3 sb
          (if s64 = false ∧ id0 = DW_CIE_ID_32 then DW_CIE_ID_64 else id0)
          (p2 + ul) s64 cies with
      | error e =>
        rw [hf] at hb
        rw [hb]
        simp [Except.map]
      | ok fde =>
        rw [hf] at hb
        rw [hb]
        simp [Except.map, exc_ok_bind, pure, Except.pure]

theorem ehLoopL_outcome (secAddr : Nat) (data : List Nat) :
    ∀ (fuel pos : Nat) (cies : List (Nat × Cie)) (fdes : List (Nat × Fde)),
      (ehLoopL secAddr data fuel pos (stripMap cies)).1 =
        (ehLoopR secAddr data fuel pos ⟨cies, fdes⟩).1 := by
  intro fuel
  induction fuel with
  | zero => intro pos cies fdes; simp [ehLoopL, ehLoopR]
  | succ n ih =>
    intro pos cies fdes
    simp only [ehLoopL, ehLoopR]
    by_cases hp : pos < data.length
    · simp only [if_pos hp]
      cases hh : recordHead data pos with
      | error e => cases e <;> simp
      | ok r =>
        obtain ⟨s64, sb, ul, p2⟩ := r
        by_cases hul : ul = 0
        · simp only [if_pos hul]
          exact ih p2 cies fdes
        · simp only [if_neg hul]
          have hb := recordBodyL_strip secAddr data pos p2 sb ul s64 cies fdes
          cases hr : recordBodyR secAddr data pos p2 sb ul s64 ⟨cies, fdes⟩ with
          | error e =>
            rw [hr] at hb
            simp only [Except.map] at hb
            rw [hb]
            cases e <;> simp
          | ok t' =>
            rw [hr] at hb
            simp only [Except.map] at hb
            rw [hb]
            exact ih (p2 + ul) t'.cies t'.fdes
    · simp only [if_neg hp]

/-- C3 (amended): from a fresh reader state (empty tables), enabling the
eh-frame diagnostic flag never changes the success/failure result of
`ReadEhFrame`, and whenever the decode succeeds it also leaves the reader
in exactly the same state as with logging disabled.  (On a failing input
the table state may differ: the log-enabled call fails inside the
diagnostic pass and leaves the member tables untouched, while the
log-disabled call retains the entries decoded before the failure — see the
counterexample.) -/
theorem log_flag_same_outcome (secAddr : Nat) (ehData : Option (List Nat))
    (st : EhReaderState) (hc : st.cies = []) (hf : st.fdes = []) :
    (ReadEhFrameM secAddr ehData true st).1 = (ReadEhFrameM secAddr ehData false st).1 ∧
    ((ReadEhFrameM secAddr ehData false st).1 = .ok →
      ReadEhFrameM secAddr ehData true st = ReadEhFrameM secAddr ehData false st) := by
  by_cases hr : st.ehFrameRead
  · simp [ReadEhFrameM, hr]
  · simp only [ReadEhFrameM, hr, Bool.false_eq_true, if_false]
    cases ehData with
    | none => simp [ehFrameDecodeOnce]
    | some data =>
      simp only [ehFrameDecodeOnce, hc, hf]
      have hout := ehLoopL_outcome secAddr data (data.length + 1) 0 [] []
      rcases hR : ehLoopR secAddr data (data.length + 1) 0 ⟨[], []⟩ with ⟨out, t⟩
      rcases hL : ehLoopL secAddr data (data.length + 1) 0 [] with ⟨lout, lcies⟩
      have heq : lout = out := by
        rw [hR] at hout
        have : ehLoopL secAddr data (data.length + 1) 0 (stripMap []) =
            ehLoopL secAddr data (data.length + 1) 0 [] := rfl
        rw [this, hL] at hout
        exact hout
      subst heq
      cases lout <;> simp_all

/-- C3 witness: on a well-formed section the log-enabled and log-disabled
decodes return identical results and states. -/
theorem log_flag_same_outcome_witness :
    ReadEhFrameM 0 (some ehSampleGood) true ⟨false, [], []⟩ =
      ReadEhFrameM 0 (some ehSampleGood) false ⟨false, [], []⟩ :=
  (log_flag_same_outcome 0 (some ehSampleGood) ⟨false, [], []⟩ rfl rfl).2 (by decide)

/-- C3 counterexample: on a section whose FDE has an unresolved CIE
reference, both calls fail, but the log-enabled call leaves the CIE table
empty while the log-disabled call retains the CIE decoded before the
failure — the decoder's tables are not in the same state, refuting the
claim as stated. -/
theorem log_flag_same_outcome_counterexample :
    (ReadEhFrameM 0 (some ehSampleBad) true ⟨false, [], []⟩).1 =
      (ReadEhFrameM 0 (some ehSampleBad) false ⟨false, [], []⟩).1 ∧
    (ReadEhFrameM 0 (some ehSampleBad) true ⟨false, [], []⟩).2 ≠
      (ReadEhFrameM 0 (some ehSampleBad) false ⟨false, [], []⟩).2 ∧
    (ReadEhFrameM 0 (some ehSampleBad) true ⟨false, [], []⟩).2.cies = [] ∧
    (ReadEhFrameM 0 (some ehSampleBad) false ⟨false, [], []⟩).2.cies ≠ [] := by
  decide

end ElfReaderModel

